import Mathlib

/-!
# Verification of the QCFractal job/service queue core

A shallow embedding, in Lean, of the two source files

* `qcfractal/storage_sockets/base_mongo_socket.py` — the storage socket
  (manager heartbeats, user accounts, service-update hooks), and
* `qcfractal/interface/collections/torsiondrive_dataset.py` — the dataset
  submission engine (`compute`) and results aggregator (`counts`).

MongoDB collections are modelled as Lean lists of records; `update_one`
with `upsert=True` is modelled with MongoDB's documented semantics
(`matched_count` counts *matched existing* documents, an upsert that
inserts matches nothing); `datetime.utcnow()` becomes an explicit `dt`
argument; `bcrypt` hashing is abstracted as function arguments
(`hashpw`, `checkpw`), since only the verification contract is in scope.
-/

namespace QCFractal

/-! ## Generic dictionary helpers (Python `dict` as an association list) -/

/-- Python `dict` assignment `d[k] = v`: replace the value of the first
occurrence of `k`, else append the new binding at the end (insertion order). -/
def dictSet {β : Type} : List (String × β) → String → β → List (String × β)
  | [], k, v => [(k, v)]
  | (k', v') :: rest, k, v =>
    if k' = k then (k, v) :: rest else (k', v') :: dictSet rest k v

/-- Python `k in d`: key membership in an association list. -/
def dictHasKey {β : Type} (d : List (String × β)) (k : String) : Bool :=
  d.any (fun kv => kv.1 == k)

/-- Python `d.get(k)` / `d[k]`: the value bound to the first occurrence of a
key. -/
def dictFind? {β : Type} (d : List (String × β)) (k : String) : Option β :=
  (d.find? (fun kv => kv.1 == k)).map (fun kv => kv.2)

/-- Python `str.lower()` restricted to ASCII case folding, as an executable
function on the character list.  (Core Lean's `String.toLower` is defined by
well-founded recursion on byte positions and does not reduce
definitionally, which would block evaluating the model on concrete
strings.) -/
def strLower (s : String) : String := String.mk (s.data.map Char.toLower)

/-- Update the first element of a list satisfying `p` (MongoDB `update_one`
touches a single matching document). -/
def updateFirst {α : Type} (p : α → Bool) (f : α → α) : List α → List α
  | [] => []
  | x :: xs => if p x then f x :: xs else x :: updateFirst p f xs

/-! ## Manager registry (`BaseMongoSocket.manager_update`) -/

/-- A document of the `queue_managers` collection.  The source writes the
last-modified field under the (misspelled) key `"modifed_on"`; we keep the
source's spelling.  Counters are integers incremented by `$inc`. -/
structure ManagerRecord where
  name : String
  created_on : Nat
  tag : Option String
  modifed_on : Nat
  submitted : Int
  completed : Int
  returned : Int
  failures : Int
deriving Repr, DecidableEq

/-- Source `BaseMongoSocket.manager_update(name, tag, submitted, completed,
failures, returned)`: one `update_one({"name": name}, {"$setOnInsert": ...,
"$set": {"modifed_on": dt}, "$inc": {...}}, upsert=True)` against the
`queue_managers` table, returning `matched_count == 1`.

MongoDB semantics: if a document with the given name exists, the first such
document gets `$set` and `$inc` applied and `matched_count` is `1`; if none
exists, a new document is built from `$setOnInsert` together with `$set` and
`$inc` (an `$inc` on a missing field creates it with the increment value) and
`matched_count` is `0`. -/
def manager_update (table : List ManagerRecord) (name : String)
    (tag : Option String) (submitted completed failures returned : Int)
    (dt : Nat) : List ManagerRecord × Bool :=
  match table.find? (fun r => r.name == name) with
  | some _ =>
    (updateFirst (fun r => r.name == name)
      (fun r =>
        { r with
          modifed_on := dt
          submitted := r.submitted + submitted
          completed := r.completed + completed
          returned := r.returned + returned
          failures := r.failures + failures }) table,
     true)
  | none =>
    (table ++ [{ name := name, created_on := dt, tag := tag, modifed_on := dt,
                 submitted := submitted, completed := completed,
                 returned := returned, failures := failures }],
     false)

/-! ## User accounts (`BaseMongoSocket.add_user` / `verify_user`) -/

/-- A document of the `users` collection. -/
structure UserRecord where
  username : String
  password : String
  permissions : List String
deriving Repr, DecidableEq

/-- Mongo `insert_one` on the `users` collection.

Modelled from the spec: the data model declares `username (unique)`; the
unique index backing the `DuplicateKeyError` that `add_user` catches is
created by the concrete socket subclass, which is not among the source
files.  With the index, inserting a duplicate username raises
`DuplicateKeyError` (here `Except.error ()`) and leaves the collection
unchanged; otherwise the document is appended. -/
def users_insert_one (users : List UserRecord) (doc : UserRecord) :
    Except Unit (List UserRecord) :=
  if users.any (fun u => u.username == doc.username) then Except.error ()
  else Except.ok (users ++ [doc])

/-- Source `BaseMongoSocket.add_user(username, password, permissions=None)`:
default the permissions to `["read"]`, hash the password, try the insert,
return `True` on success and `False` on `DuplicateKeyError`.  Returns the
updated collection alongside the boolean. -/
def add_user (hashpw : String → String) (users : List UserRecord)
    (username password : String) (permissions : Option (List String)) :
    List UserRecord × Bool :=
  let perms := permissions.getD ["read"]
  let hashed := hashpw password
  match users_insert_one users
      { username := username, password := hashed, permissions := perms } with
  | Except.ok users2 => (users2, true)
  | Except.error _ => (users, false)

/-- Source `BaseMongoSocket.verify_user(username, password, permission)`:
bypass mode returns `(True, "Success")` unconditionally; otherwise look the
user up, check the password with bcrypt (`checkpw`, abstracted), then check
that the lowercased permission is held or that the user holds `admin`. -/
def verify_user (bypass : Bool) (checkpw : String → String → Bool)
    (users : List UserRecord) (username password permission : String) :
    Bool × String :=
  if bypass then (true, "Success")
  else
    match users.find? (fun u => u.username == username) with
    | none => (false, "User not found.")
    | some data =>
      if checkpw password data.password = false then
        (false, "Incorrect password.")
      else if ¬ (strLower permission ∈ data.permissions)
              ∧ ¬ ("admin" ∈ data.permissions) then
        (false, "User has insufficient permissions.")
      else
        (true, "Success")

/-! ## Service-update hooks (`BaseMongoSocket.handle_hooks`) -/

/-- One hook: a target document reference (the source uses
`hook["document"][1]` as the record id) and a list of update commands, each
a triple `(operation, field, value)`. -/
structure Hook where
  document : String × String
  updates : List (String × String × Int)
deriving Repr, DecidableEq

/-- The inner loop of `handle_hooks` building the Mongo update document for a
single hook: `commands["$" + com[0]] = {com[1]: com[2]}` for each command, a
dict keyed by operator whose value is a *singleton* field/value dict — a later
command with the same operator overwrites the earlier one's entry. -/
def buildCommands (updates : List (String × String × Int)) :
    List (String × String × Int) :=
  updates.foldl (fun cmds com => dictSet cmds ("$" ++ com.1) (com.2.1, com.2.2)) []

/-- Source `BaseMongoSocket.handle_hooks(hooks)`: flatten the hook lists and emit,
in order, one `UpdateOne({"_id": id}, commands)` per hook for the
`service_queue` bulk write. -/
def handle_hooks_bulk (hooks : List (List Hook)) :
    List (String × List (String × String × Int)) :=
  hooks.flatten.map (fun h => (h.document.2, buildCommands h.updates))

/-! ## TorsionDrive dataset (`TorsionDriveDataset`) -/

/-- Source `TDRecord`: one work item of the collection.  `initial_molecules` are
opaque molecule ids, `td_keywords` and `attributes` are opaque payloads, and
`object_map` maps a specification name to the id of the service submitted
for it. -/
structure TDRecord where
  name : String
  initial_molecules : List Nat
  td_keywords : Nat
  attributes : Nat
  object_map : List (String × Nat)
deriving Repr, DecidableEq

/-- Source `TorsionDriveSpecification`: a named pair of opaque sub-specifications. -/
structure TorsionDriveSpecification where
  name : String
  description : Option String
  optimization_spec : Nat
  qc_spec : Nat
deriving Repr, DecidableEq

/-- Source `TorsionDriveDataset.DataModel`: the records dict (insertion-ordered),
the history set of computed specification names, and the specs dict keyed by
lowercased name. -/
structure DataModel where
  records : List (String × TDRecord)
  history : List String
  specs : List (String × TorsionDriveSpecification)
deriving Repr, DecidableEq

/-- Source `TorsionDriveInput`: the service payload built by `compute` for one
eligible work item. -/
structure TorsionDriveInput where
  initial_molecule : List Nat
  keywords : Nat
  optimization_spec : Nat
  qc_spec : Nat
deriving Repr, DecidableEq

/-- One submission made by `compute`: the originating record's name, the id
returned by `client.add_service`, the payload, and the queue tag/priority. -/
structure Submission where
  recordName : String
  id : Nat
  service : TorsionDriveInput
  tag : Option String
  priority : Option String
deriving Repr, DecidableEq

/-- Modelled from the spec: `get_specification` lives in the collection base
class (`collection.py`, not among the source files); it resolves a
specification by case-normalized name and fails with NotFound (here `none`)
if absent. -/
def get_specification (ds : DataModel) (name : String) :
    Option TorsionDriveSpecification :=
  (ds.specs.find? (fun kv => kv.1 == strLower name)).map (fun kv => kv.2)

/-- Python `set.add`: insert into the history set if not already present. -/
def historyAdd (history : List String) (s : String) : List String :=
  if s ∈ history then history else history ++ [s]

/-- The subset check of `compute`: `(subset is not None) and (rec.name not
in subset)`.  (The source's `if subset: subset = set(subset)` leaves an
empty subset distinct from `None`, so an empty subset skips every record.) -/
def subsetSkip (subset : Option (List String)) (name : String) : Bool :=
  match subset with
  | some s => decide (name ∉ s)
  | none => false

/-- The `for rec in self.data.records.values()` loop of
`TorsionDriveDataset.compute`: walk the records in order; skip a record when
`specification` is already a key of its `object_map` or when a subset is
given and the record's name is not in it; otherwise build the
`TorsionDriveInput` payload, submit it (`client.add_service` hands out fresh
ids, modelled by the counter `nextId`), record the returned id in the
record's `object_map` under `specification`, and count the submission.
Returns the updated records, the next fresh id, the submissions made, and
the number submitted. -/
def computeLoop (spec : TorsionDriveSpecification) (specification : String)
    (subset : Option (List String)) (tag priority : Option String) :
    List (String × TDRecord) → Nat →
    List (String × TDRecord) × Nat × List Submission × Nat
  | [], nextId => ([], nextId, [], 0)
  | (k, rec) :: rest, nextId =>
    if dictHasKey rec.object_map specification then
      let r := computeLoop spec specification subset tag priority rest nextId
      ((k, rec) :: r.1, r.2.1, r.2.2.1, r.2.2.2)
    else if subsetSkip subset rec.name then
      let r := computeLoop spec specification subset tag priority rest nextId
      ((k, rec) :: r.1, r.2.1, r.2.2.1, r.2.2.2)
    else
      let service : TorsionDriveInput :=
        { initial_molecule := rec.initial_molecules
          keywords := rec.td_keywords
          optimization_spec := spec.optimization_spec
          qc_spec := spec.qc_spec }
      let rec2 := { rec with object_map := rec.object_map ++ [(specification, nextId)] }
      let r := computeLoop spec specification subset tag priority rest (nextId + 1)
      ((k, rec2) :: r.1, r.2.1,
       { recordName := rec.name, id := nextId, service := service,
         tag := tag, priority := priority } :: r.2.2.1,
       r.2.2.2 + 1)

/-- Source `TorsionDriveDataset.compute(specification, subset, tag, priority)`:
lowercase the specification name, resolve it (NotFound aborts), run the
submission loop over all records, add the name to the history set, persist
(`save` is the identity in this model) and return the submission count.
`client.add_service` is modelled by the fresh-id counter `nextId`. -/
def compute (ds : DataModel) (nextId : Nat) (specName : String)
    (subset : Option (List String)) (tag priority : Option String) :
    Option (DataModel × Nat × List Submission × Nat) :=
  let specification := (strLower specName)
  match get_specification ds specification with
  | none => none
  | some spec =>
    let r := computeLoop spec specification subset tag priority ds.records nextId
    some ({ ds with records := r.1, history := historyAdd ds.history specification },
          r.2.1, r.2.2.1, r.2.2.2)

/-! ## Results aggregator (`TorsionDriveDataset.counts`) -/

/-- A fetched optimization record, reduced to the one field `counts`
reads: its trajectory (a list of gradient-result ids). -/
structure OptRecordView where
  trajectory : List Nat
deriving Repr, DecidableEq

/-- A fetched TorsionDrive service record as `counts` sees it: its status
string and its per-stage execution history, mapping a grid-point key to the
list of optimizations run for that key. -/
structure TDView where
  status : String
  optimization_history : List (String × List OptRecordView)
deriving Repr, DecidableEq

/-- Modelled from the spec: `get_history()` belongs to the TorsionDrive
record model, which is not among the source files; per the spec it walks the
nested per-stage execution history, i.e. it returns, for every stage key of
`optimization_history`, the (fetched) optimization records of that stage. -/
def TDView.get_history (td : TDView) : List (String × List OptRecordView) :=
  td.optimization_history

/-- Source `count_gradient_evals(td)` (inner function of `counts`): `None` unless
the record is COMPLETE, else accumulate `len(opt.trajectory)` over every
optimization of every stage of `td.get_history()`. -/
def count_gradient_evals (td : TDView) : Option Nat :=
  if td.status ≠ "COMPLETE" then none
  else
    some (td.get_history.foldl
      (fun total kv => kv.2.foldl (fun t opt => t + opt.trajectory.length) total) 0)

/-- Source `count_optimizations(td)` (inner function of `counts`): `None` unless
the record is COMPLETE, else `sum(len(v) for v in
td.optimization_history.values())`. -/
def count_optimizations (td : TDView) : Option Nat :=
  if td.status ≠ "COMPLETE" then none
  else some ((td.optimization_history.map (fun kv => kv.2.length)).sum)

/-- Source `TorsionDriveDataset.counts(entries, specs, count_gradients)`: the
dataframe walk.  `dfIndex`/`dfCols` are the index and columns of `self.df`
and `df` its cell lookup.  When `specs` is `None` all dataframe columns are
used; when `entries` is empty (`if entries:` falsy) the whole column is
kept.  Column by column the count function is applied, then the column list
is transposed into rows (`pd.DataFrame(ret).transpose()`), and rows that are
null across all columns are dropped (`dropna(how="all")`). -/
def countsDF (dfIndex dfCols : List String) (df : String → String → TDView)
    (entries : List String) (specs : Option (List String))
    (count_gradients : Bool) : List (String × List (Option Nat)) :=
  let specsL := specs.getD dfCols
  let entRows := if entries.isEmpty then dfIndex else entries
  let retCols : List (List (Option Nat)) := specsL.map (fun col =>
    entRows.map (fun e =>
      if count_gradients then count_gradient_evals (df e col)
      else count_optimizations (df e col)))
  let rows := (List.range entRows.length).map (fun i =>
    (entRows.getD i "", retCols.map (fun c => c.getD i none)))
  rows.filter (fun r => !(r.2.all (fun x => x.isNone)))

/-- Stated from the spec's words, for comparison with `countsDF`: the value
of one requested (entry, spec) cell.  Null unless the ServiceRecord is
COMPLETE; else, with `count_gradients`, the sum over all stages of the
lengths of every innermost per-stage sub-trajectory; without, the number of
stages executed across the top-level history. -/
def specCellValue (df : String → String → TDView) (count_gradients : Bool)
    (e s : String) : Option Nat :=
  if (df e s).status = "COMPLETE" then
    some (if count_gradients then
            (((df e s).optimization_history).map
              (fun kv => (kv.2.map (fun o => o.trajectory.length)).sum)).sum
          else
            (((df e s).optimization_history).map (fun kv => kv.2.length)).sum)
  else none

/-! ## Predicates used by the claim statements -/

/-- The skip condition of `compute` for one record: the specification is
already a key of its `object_map`, or the record's name is excluded by the
subset. -/
def recSkipped (specification : String) (subset : Option (List String))
    (kr : String × TDRecord) : Bool :=
  dictHasKey kr.2.object_map specification || subsetSkip subset kr.2.name

/-- Record preservation: the work item keeps its dictionary key and every
(specification → job-identifier) binding already present in its
`object_map` is still present, with the same identifier, afterwards. -/
def RecPreserve (a b : String × TDRecord) : Prop :=
  a.1 = b.1 ∧ ∀ s v, dictFind? a.2.object_map s = some v →
    dictFind? b.2.object_map s = some v

/-! ## Concrete data for the witnesses -/

/-- A three-item collection `{a, b, c}` with one specification `s1` and no
submissions yet. -/
def dsW : DataModel :=
  { records := [("a", { name := "a", initial_molecules := [1],
                        td_keywords := 0, attributes := 0, object_map := [] }),
                ("b", { name := "b", initial_molecules := [2],
                        td_keywords := 0, attributes := 0, object_map := [] }),
                ("c", { name := "c", initial_molecules := [3],
                        td_keywords := 0, attributes := 0, object_map := [] })],
    history := [],
    specs := [("s1", { name := "s1", description := none,
                       optimization_spec := 7, qc_spec := 8 })] }

/-- The result of a first `compute("S1")` call on `dsW` (for the witness of
idempotent submission). -/
def outW : DataModel × Nat × List Submission × Nat :=
  (compute dsW 0 "S1" none none none).getD (dsW, 0, [], 0)

/-- The result of a `compute("s1", subset={"a"})` call on `dsW` (for the
witness of subset restriction). -/
def outWsub : DataModel × Nat × List Submission × Nat :=
  (compute dsW 0 "s1" (some ["a"]) none none).getD (dsW, 0, [], 0)

/-- A two-row, one-column dataframe of service records: entry `"a"` is
COMPLETE with two stages of sizes 2 and 1, entry `"b"` is RUNNING. -/
def dfW : String → String → TDView := fun e _ =>
  if e = "a" then
    { status := "COMPLETE",
      optimization_history :=
        [("0", [{ trajectory := [1, 2] }, { trajectory := [3] }]),
         ("1", [{ trajectory := [4] }])] }
  else
    { status := "RUNNING", optimization_history := [("0", [{ trajectory := [1] }])] }

/-! ## Helper lemmas -/

theorem updateFirst_append_of_none {α : Type} {p : α → Bool} {f : α → α}
    {l1 l2 : List α} (h : l1.find? p = none) :
    updateFirst p f (l1 ++ l2) = l1 ++ updateFirst p f l2 := by
  induction l1 with
  | nil => simp
  | cons x xs ih =>
    rw [List.find?_cons] at h
    cases hx : p x with
    | true => rw [hx] at h; exact absurd h (by simp)
    | false =>
      rw [hx] at h
      simp only [List.cons_append, updateFirst, hx, if_neg Bool.false_ne_true,
        List.append_eq]
      rw [ih h]

theorem find?_append_left_none {α : Type} {p : α → Bool} {l1 l2 : List α}
    (h : l1.find? p = none) : (l1 ++ l2).find? p = l2.find? p := by
  rw [List.find?_append, h, Option.none_or]

theorem dictFind?_append_of_some {β : Type} {d d2 : List (String × β)}
    {k : String} {v : β} (h : dictFind? d k = some v) :
    dictFind? (d ++ d2) k = some v := by
  unfold dictFind? at h ⊢
  cases hf : d.find? (fun kv => kv.1 == k) with
  | none => rw [hf] at h; exact absurd h (by simp)
  | some kv => rw [List.find?_append, hf]; rw [hf] at h; exact h

theorem dictHasKey_append_right {β : Type} (d : List (String × β))
    (k : String) (v : β) : dictHasKey (d ++ [(k, v)]) k = true := by
  simp [dictHasKey, List.any_append]

/-- Every record left behind by the `compute` loop satisfies the skip
condition: it either carries the specification in its `object_map` or is
excluded by the subset. -/
theorem computeLoop_post (spec : TorsionDriveSpecification) (s : String)
    (subset : Option (List String)) (tag priority : Option String) :
    ∀ (l : List (String × TDRecord)) (nid : Nat),
      ∀ kr ∈ (computeLoop spec s subset tag priority l nid).1,
        recSkipped s subset kr = true
  | [], _ => by simp [computeLoop]
  | (k, rec) :: rest, nid => by
    by_cases h1 : dictHasKey rec.object_map s
    · intro kr hkr
      simp only [computeLoop, h1, if_true, List.mem_cons] at hkr
      rcases hkr with rfl | hkr
      · simp [recSkipped, h1]
      · exact computeLoop_post spec s subset tag priority rest nid kr hkr
    · by_cases h2 : subsetSkip subset rec.name
      · intro kr hkr
        simp only [computeLoop, h1, h2, if_true, if_false,
          Bool.false_eq_true, List.mem_cons] at hkr
        rcases hkr with rfl | hkr
        · simp [recSkipped, h2]
        · exact computeLoop_post spec s subset tag priority rest nid kr hkr
      · intro kr hkr
        simp only [computeLoop, h1, h2, if_false, Bool.false_eq_true,
          List.mem_cons] at hkr
        rcases hkr with rfl | hkr
        · simp [recSkipped, dictHasKey_append_right]
        · exact computeLoop_post spec s subset tag priority rest (nid + 1) kr hkr

/-- If every record satisfies the skip condition, the `compute` loop leaves
the records untouched, hands out no ids, makes no submission and counts
zero. -/
theorem computeLoop_all_skipped (spec : TorsionDriveSpecification) (s : String)
    (subset : Option (List String)) (tag priority : Option String) :
    ∀ (l : List (String × TDRecord)) (nid : Nat),
      (∀ kr ∈ l, recSkipped s subset kr = true) →
      computeLoop spec s subset tag priority l nid = (l, nid, [], 0)
  | [], nid, _ => by simp [computeLoop]
  | (k, rec) :: rest, nid, hall => by
    have hhead := hall (k, rec) (List.mem_cons_self _ _)
    have htail : ∀ kr ∈ rest, recSkipped s subset kr = true :=
      fun kr hkr => hall kr (List.mem_cons_of_mem _ hkr)
    have ih := computeLoop_all_skipped spec s subset tag priority rest nid htail
    simp only [recSkipped, Bool.or_eq_true] at hhead
    by_cases h1 : dictHasKey rec.object_map s
    · simp [computeLoop, h1, ih]
    · have h2 : subsetSkip subset rec.name = true := by
        rcases hhead with h | h
        · exact absurd h h1
        · exact h
      simp [computeLoop, h1, h2, ih]

/-- The `compute` loop preserves every binding already present in a
record's `object_map`, and the records' keys and order. -/
theorem computeLoop_preserves (spec : TorsionDriveSpecification) (s : String)
    (subset : Option (List String)) (tag priority : Option String) :
    ∀ (l : List (String × TDRecord)) (nid : Nat),
      List.Forall₂ RecPreserve l (computeLoop spec s subset tag priority l nid).1
  | [], _ => by simp [computeLoop]
  | (k, rec) :: rest, nid => by
    by_cases h1 : dictHasKey rec.object_map s
    · simp only [computeLoop, h1, if_true]
      exact List.Forall₂.cons ⟨rfl, fun _ _ h => h⟩
        (computeLoop_preserves spec s subset tag priority rest nid)
    · by_cases h2 : subsetSkip subset rec.name
      · simp only [computeLoop, h1, h2, if_true, if_false, Bool.false_eq_true]
        exact List.Forall₂.cons ⟨rfl, fun _ _ h => h⟩
          (computeLoop_preserves spec s subset tag priority rest nid)
      · simp only [computeLoop, h1, h2, if_false, Bool.false_eq_true]
        exact List.Forall₂.cons
          ⟨rfl, fun _ _ h => dictFind?_append_of_some h⟩
          (computeLoop_preserves spec s subset tag priority rest (nid + 1))

/-- With a subset given, the `compute` loop changes no record whose name is
outside the subset and every submission it makes names a record inside the
subset. -/
theorem computeLoop_subset (spec : TorsionDriveSpecification) (s : String)
    (sub : List String) (tag priority : Option String) :
    ∀ (l : List (String × TDRecord)) (nid : Nat),
      List.Forall₂ (fun a b => a.2.name ∉ sub → b = a) l
        (computeLoop spec s (some sub) tag priority l nid).1 ∧
      ∀ sb ∈ (computeLoop spec s (some sub) tag priority l nid).2.2.1,
        sb.recordName ∈ sub
  | [], _ => by simp [computeLoop]
  | (k, rec) :: rest, nid => by
    by_cases h1 : dictHasKey rec.object_map s
    · have ih := computeLoop_subset spec s sub tag priority rest nid
      simp only [computeLoop, h1, if_true]
      exact ⟨List.Forall₂.cons (fun _ => rfl) ih.1,
        fun sb hsb => ih.2 sb hsb⟩
    · by_cases h2 : subsetSkip (some sub) rec.name
      · have ih := computeLoop_subset spec s sub tag priority rest nid
        simp only [computeLoop, h1, h2, if_true, if_false, Bool.false_eq_true]
        exact ⟨List.Forall₂.cons (fun _ => rfl) ih.1,
          fun sb hsb => ih.2 sb hsb⟩
      · have ih := computeLoop_subset spec s sub tag priority rest (nid + 1)
        have hmem : rec.name ∈ sub := by
          simp only [subsetSkip, decide_eq_true_eq] at h2
          exact not_not.mp h2
        simp only [computeLoop, h1, h2, if_false, Bool.false_eq_true]
        constructor
        · exact List.Forall₂.cons (fun hn => absurd hmem hn) ih.1
        · intro sb hsb
          simp only [List.mem_cons] at hsb
          rcases hsb with rfl | hsb
          · exact hmem
          · exact ih.2 sb hsb

/-! ## Claim theorems -/

/-- C7: when bypass-security mode is enabled, `verify_user` returns
`(true, "Success")` for every username, password and requested permission,
independently of the user store and of the password checker. -/
theorem verify_user_bypass_always_success (checkpw : String → String → Bool)
    (users : List UserRecord) (username password permission : String) :
    verify_user true checkpw users username password permission =
      (true, "Success") := rfl

/-- C2: `handle_hooks` does *not* merge all update commands for one record
into a single atomic update.  First conjunct: within one hook, two commands
with the same operation (`inc` of field `"x"`, then `inc` of field `"y"`)
collapse to a single-operator document that has dropped the `"x"` update
entirely, so the record's updates from that call are partially applied.
Second conjunct: two hooks of the same call targeting the same record id
produce two separate update operations, not one merged update. -/
theorem handle_hooks_same_record_not_merged :
    (handle_hooks_bulk
        [[{ document := ("service_queue", "a1"),
            updates := [("inc", "x", 1), ("inc", "y", 2)] }]] =
      [("a1", [("$inc", "y", 2)])]) ∧
    (handle_hooks_bulk
        [[{ document := ("service_queue", "a1"), updates := [("inc", "x", 1)] },
          { document := ("service_queue", "a1"), updates := [("inc", "y", 2)] }]] =
      [("a1", [("$inc", "x", 1)]), ("a1", [("$inc", "y", 2)])]) :=
  ⟨rfl, rfl⟩

/-- C3 (counterexample): the very first heartbeat for a manager name — the
call that creates the record by upsert — matches no existing document, so
`manager_update` returns `matched_count == 1`, i.e. `false`, contradicting
the claim that every well-formed heartbeat returns true. -/
theorem manager_update_first_heartbeat_false :
    (manager_update [] "w1" (some "default") 0 0 0 0 0).2 = false := rfl

/-- C3 (amended): `manager_update` returns true if and only if a manager
record with the given name already existed before the call; on the very
first heartbeat, which creates the record, it returns false. -/
theorem manager_update_true_iff_matched (table : List ManagerRecord)
    (name : String) (tag : Option String) (s c f r : Int) (dt : Nat) :
    (manager_update table name tag s c f r dt).2 = true ↔
      ((table.find? (fun x => x.name == name)).isSome = true) := by
  unfold manager_update
  cases h : table.find? (fun x => x.name == name) <;> simp [h]

/-- C4: heartbeat counters are additive.  Starting from a store with no
record for the manager, two successive heartbeats with counter deltas
`(s1, c1, f1, r1)` and `(s2, c2, f2, r2)` leave a record whose four counters
are the sums of the deltas and whose modified-on field (spelled
`modifed_on` in the source) is the second call's timestamp. -/
theorem manager_update_counters_additive (table : List ManagerRecord)
    (name : String) (tag1 tag2 : Option String)
    (s1 c1 f1 r1 s2 c2 f2 r2 : Int) (dt1 dt2 : Nat)
    (hfresh : table.find? (fun x => x.name == name) = none) :
    ((manager_update (manager_update table name tag1 s1 c1 f1 r1 dt1).1
        name tag2 s2 c2 f2 r2 dt2).1).find? (fun x => x.name == name) =
      some { name := name, created_on := dt1, tag := tag1, modifed_on := dt2,
             submitted := s1 + s2, completed := c1 + c2,
             returned := r1 + r2, failures := f1 + f2 } := by
  unfold manager_update
  rw [hfresh]
  have h1 : ((table ++
      [{ name := name, created_on := dt1, tag := tag1, modifed_on := dt1,
         submitted := s1, completed := c1, returned := r1,
         failures := f1 : ManagerRecord }]).find? (fun x => x.name == name)) =
      some { name := name, created_on := dt1, tag := tag1, modifed_on := dt1,
             submitted := s1, completed := c1, returned := r1, failures := f1 } := by
    rw [find?_append_left_none hfresh]
    simp [List.find?_cons]
  simp only [h1]
  rw [updateFirst_append_of_none hfresh]
  rw [find?_append_left_none hfresh]
  simp [updateFirst, List.find?_cons]

/-- C4 (witness): `heartbeat("w1", submitted=1)` then
`heartbeat("w1", submitted=2)` on an empty manager table stores a
`submitted` counter of 3, not 2. -/
theorem manager_update_counters_additive_witness :
    (([] : List ManagerRecord).find? (fun x => x.name == "w1") = none) ∧
    ((manager_update (manager_update [] "w1" (some "t") 1 0 0 0 100).1
        "w1" none 2 0 0 0 200).1).find? (fun x => x.name == "w1") =
      some { name := "w1", created_on := 100, tag := some "t",
             modifed_on := 200, submitted := 3, completed := 0,
             returned := 0, failures := 0 } :=
  ⟨rfl, by
    have h := manager_update_counters_additive [] "w1" (some "t") none
      1 0 0 0 2 0 0 0 100 200 rfl
    simpa using h⟩

/-- C8: with bypass disabled, a failing `verify_user` call — unknown user,
incorrect password, or insufficient permissions — returns one of the three
explicit `(false, reason)` pairs; the embedding is a total function, so no
exception is ever raised on a credential or permission failure. -/
theorem verify_user_failure_is_explicit_pair (checkpw : String → String → Bool)
    (users : List UserRecord) (username password permission : String)
    (h : (verify_user false checkpw users username password permission).1 = false) :
    verify_user false checkpw users username password permission =
        (false, "User not found.") ∨
      verify_user false checkpw users username password permission =
        (false, "Incorrect password.") ∨
      verify_user false checkpw users username password permission =
        (false, "User has insufficient permissions.") := by
  cases hf : users.find? (fun u => u.username == username) with
  | none => left; simp [verify_user, hf]
  | some d =>
    by_cases hc : checkpw password d.password = false
    · right; left; simp [verify_user, hf, hc]
    · by_cases hp : strLower permission ∉ d.permissions
          ∧ "admin" ∉ d.permissions
      · right; right; simp [verify_user, hf, hc, hp]
      · simp [verify_user, hf, hc, hp] at h

/-- C8 (witness): verifying an unknown user against an empty store fails
with the explicit pair `(false, "User not found.")`. -/
theorem verify_user_failure_is_explicit_pair_witness :
    ((verify_user false (fun _ _ => false) [] "anyone" "pw" "read").1 = false) ∧
    (verify_user false (fun _ _ => false) [] "anyone" "pw" "read" =
        (false, "User not found.") ∨
      verify_user false (fun _ _ => false) [] "anyone" "pw" "read" =
        (false, "Incorrect password.") ∨
      verify_user false (fun _ _ => false) [] "anyone" "pw" "read" =
        (false, "User has insufficient permissions.")) :=
  ⟨rfl, verify_user_failure_is_explicit_pair (fun _ _ => false) []
    "anyone" "pw" "read" rfl⟩

/-- C9: `add_user` with an already-taken username returns failure and leaves
the user collection — in particular the existing record's password hash and
permission set — exactly as it was. -/
theorem add_user_duplicate_username_noop (hashpw : String → String)
    (users : List UserRecord) (username password : String)
    (perms : Option (List String)) (u : UserRecord)
    (hu : u ∈ users) (hname : u.username = username) :
    add_user hashpw users username password perms = (users, false) := by
  have hany : users.any (fun x => x.username == username) = true :=
    List.any_eq_true.mpr ⟨u, hu, by simp [hname]⟩
  simp [add_user, users_insert_one, hany]

/-- C9 (witness): re-adding username `"u"` to a store holding a record for
`"u"` with permissions `["admin"]` fails and leaves the store unchanged. -/
theorem add_user_duplicate_username_noop_witness :
    ({ username := "u", password := "hp", permissions := ["admin"] } ∈
      [{ username := "u", password := "hp", permissions := ["admin"] :
        UserRecord }]) ∧
    (({ username := "u", password := "hp",
        permissions := ["admin"] : UserRecord }).username = "u") ∧
    (add_user (fun p => p)
        [{ username := "u", password := "hp", permissions := ["admin"] }]
        "u" "pw" none =
      ([{ username := "u", password := "hp", permissions := ["admin"] }], false)) :=
  ⟨by simp, rfl,
    add_user_duplicate_username_noop (fun p => p)
      [{ username := "u", password := "hp", permissions := ["admin"] }]
      "u" "pw" none
      { username := "u", password := "hp", permissions := ["admin"] }
      (by simp) rfl⟩

/-- C10: `add_user` with the permissions argument omitted (`None`) on a
fresh username creates exactly one new user record whose stored permission
set is exactly `["read"]`. -/
theorem add_user_default_read_permissions (hashpw : String → String)
    (users : List UserRecord) (username password : String)
    (hfresh : users.any (fun x => x.username == username) = false) :
    add_user hashpw users username password none =
      (users ++ [{ username := username, password := hashpw password,
                   permissions := ["read"] }], true) := by
  simp [add_user, users_insert_one, hfresh]

/-- C10 (witness): adding `"u"` with no permissions argument to an empty
store creates the record with permission set exactly `["read"]`. -/
theorem add_user_default_read_permissions_witness :
    (([] : List UserRecord).any (fun x => x.username == "u") = false) ∧
    (add_user (fun p => String.append "h" p) [] "u" "pw" none =
      ([{ username := "u", password := String.append "h" "pw",
          permissions := ["read"] }], true)) :=
  ⟨rfl, add_user_default_read_permissions (fun p => String.append "h" p)
    [] "u" "pw" rfl⟩

theorem historyAdd_idem (l : List String) (s : String) :
    historyAdd (historyAdd l s) s = historyAdd l s := by
  by_cases h : s ∈ l <;> simp [historyAdd, h]

theorem get_specification_update (ds : DataModel)
    (recs : List (String × TDRecord)) (hist : List String) (n : String) :
    get_specification { ds with records := recs, history := hist } n =
      get_specification ds n := rfl

/-- C1: `compute` is idempotent and deduplicating.  If a `compute` call
succeeds, then (i) repeating it with the same arguments changes nothing,
makes no submission and returns a count of 0, because every record either
now carries the specification in its `object_map` or is excluded by the
subset; and (ii) the call preserved every (specification → job-identifier)
binding that already existed, so across any sequence of `compute` calls at
most one job identifier is ever recorded per (item, specification) pair. -/
theorem compute_idempotent_and_dedup (ds : DataModel) (nextId : Nat)
    (specName : String) (subset : Option (List String))
    (tag priority : Option String)
    (out : DataModel × Nat × List Submission × Nat)
    (h : compute ds nextId specName subset tag priority = some out) :
    compute out.1 out.2.1 specName subset tag priority =
      some (out.1, out.2.1, [], 0) ∧
    List.Forall₂ RecPreserve ds.records out.1.records := by
  unfold compute at h ⊢
  dsimp only at h ⊢
  cases hs : get_specification ds (strLower specName) with
  | none => rw [hs] at h; exact Option.noConfusion h
  | some spec =>
    rw [hs] at h
    simp only [Option.some.injEq] at h
    subst h
    dsimp only
    rw [get_specification_update, hs]
    have hpost := computeLoop_post spec (strLower specName) subset tag priority
      ds.records nextId
    have hskip := computeLoop_all_skipped spec (strLower specName) subset tag
      priority
      (computeLoop spec (strLower specName) subset tag priority ds.records nextId).1
      (computeLoop spec (strLower specName) subset tag priority ds.records nextId).2.1
      hpost
    dsimp only
    rw [hskip]
    refine ⟨?_, computeLoop_preserves spec (strLower specName) subset tag priority
      ds.records nextId⟩
    dsimp only
    rw [historyAdd_idem]

/-- C1 (witness): on the concrete collection `{a, b, c}` with specification
`s1`, a first `compute("S1")` succeeds and the second identical call leaves
the dataset unchanged, submits nothing and returns 0, while every binding
recorded by the first call is preserved. -/
theorem compute_idempotent_and_dedup_witness :
    (compute dsW 0 "S1" none none none = some outW) ∧
    (compute outW.1 outW.2.1 "S1" none none none =
        some (outW.1, outW.2.1, [], 0) ∧
      List.Forall₂ RecPreserve dsW.records outW.1.records) :=
  ⟨rfl, compute_idempotent_and_dedup dsW 0 "S1" none none none outW rfl⟩

/-- C6: `compute` with a subset submits only for items whose name is in the
subset — every submission made names a record inside the subset — and every
record whose name is outside the subset is left entirely unchanged
(in particular its `object_map`). -/
theorem compute_subset_restriction (ds : DataModel) (nextId : Nat)
    (specName : String) (sub : List String) (tag priority : Option String)
    (out : DataModel × Nat × List Submission × Nat)
    (h : compute ds nextId specName (some sub) tag priority = some out) :
    (∀ sb ∈ out.2.2.1, sb.recordName ∈ sub) ∧
    List.Forall₂ (fun a b => a.2.name ∉ sub → b = a) ds.records
      out.1.records := by
  unfold compute at h
  dsimp only at h
  cases hs : get_specification ds (strLower specName) with
  | none => rw [hs] at h; exact Option.noConfusion h
  | some spec =>
    rw [hs] at h
    simp only [Option.some.injEq] at h
    subst h
    dsimp only
    have hsub := computeLoop_subset spec (strLower specName) sub tag priority
      ds.records nextId
    exact ⟨hsub.2, hsub.1⟩

/-- C6 (witness): on the concrete collection `{a, b, c}`,
`compute("s1", subset={"a"})` submits only for `"a"` and leaves the records
`"b"` and `"c"` unchanged. -/
theorem compute_subset_restriction_witness :
    (compute dsW 0 "s1" (some ["a"]) none none = some outWsub) ∧
    ((∀ sb ∈ outWsub.2.2.1, sb.recordName ∈ ["a"]) ∧
      List.Forall₂ (fun a b => a.2.name ∉ ["a"] → b = a) dsW.records
        outWsub.1.records) :=
  ⟨rfl, compute_subset_restriction dsW 0 "s1" ["a"] none none outWsub rfl⟩

theorem foldl_add_map {α : Type} (f : α → Nat) :
    ∀ (l : List α) (n : Nat), l.foldl (fun a x => a + f x) n = n + (l.map f).sum
  | [], n => by simp
  | x :: xs, n => by
    simp only [List.foldl_cons, List.map_cons, List.sum_cons]
    rw [foldl_add_map f xs (n + f x)]
    omega

theorem count_gradient_evals_eq (td : TDView) :
    count_gradient_evals td =
      if td.status = "COMPLETE" then
        some ((td.optimization_history.map
          (fun kv => (kv.2.map (fun o => o.trajectory.length)).sum)).sum)
      else none := by
  unfold count_gradient_evals TDView.get_history
  by_cases h : td.status = "COMPLETE"
  · rw [if_neg (by simp [h]), if_pos h]
    congr 1
    have hinner : (fun (total : Nat) (kv : String × List OptRecordView) =>
        kv.2.foldl (fun t opt => t + opt.trajectory.length) total) =
        (fun total kv =>
          total + (kv.2.map (fun o => o.trajectory.length)).sum) := by
      funext total kv
      exact foldl_add_map (fun o => o.trajectory.length) kv.2 total
    rw [hinner, foldl_add_map
      (fun kv : String × List OptRecordView =>
        (kv.2.map (fun o => o.trajectory.length)).sum)]
    omega
  · rw [if_pos (by simp [h]), if_neg h]

theorem count_optimizations_eq (td : TDView) :
    count_optimizations td =
      if td.status = "COMPLETE" then
        some ((td.optimization_history.map (fun kv => kv.2.length)).sum)
      else none := by
  unfold count_optimizations
  by_cases h : td.status = "COMPLETE"
  · rw [if_neg (by simp [h]), if_pos h]
  · rw [if_pos (by simp [h]), if_neg h]

theorem counts_cell_eq (df : String → String → TDView) (cg : Bool)
    (e s : String) :
    (if cg then count_gradient_evals (df e s)
     else count_optimizations (df e s)) = specCellValue df cg e s := by
  cases cg with
  | true =>
    rw [if_pos rfl, count_gradient_evals_eq]
    unfold specCellValue
    by_cases h : (df e s).status = "COMPLETE" <;> simp [h]
  | false =>
    rw [if_neg Bool.false_ne_true, count_optimizations_eq]
    unfold specCellValue
    by_cases h : (df e s).status = "COMPLETE" <;> simp [h]

theorem range_map_transpose (g : String → String → Option Nat)
    (specsQ : List String) :
    ∀ (entries : List String),
      (List.range entries.length).map (fun i =>
        (entries.getD i "",
         specsQ.map (fun s => (entries.map (fun e => g e s)).getD i none))) =
      entries.map (fun e => (e, specsQ.map (fun s => g e s)))
  | [] => by simp
  | e :: es => by
    simp only [List.length_cons, List.range_succ_eq_map, List.map_cons,
      List.map_map, List.getD_cons_zero, Function.comp]
    refine congrArg₂ (· :: ·) ?_ ?_
    · simp
    · rw [← range_map_transpose g specsQ es]
      refine List.map_congr_left (fun i hi => ?_)
      simp [List.getD_cons_succ]

/-- C5: for every requested (entry, spec) cell, `counts` produces null when
the ServiceRecord's status is not COMPLETE; when it is COMPLETE the cell is
the sum over all stages of the lengths of every innermost per-stage
sub-trajectory if gradients are counted, else the number of stage
executions across the top-level history; and every output row that is null
across all requested specs is absent from the returned table. -/
theorem counts_cells_and_dropna (dfIndex dfCols : List String)
    (df : String → String → TDView) (entries specsL : List String)
    (cg : Bool) (h : entries ≠ []) :
    countsDF dfIndex dfCols df entries (some specsL) cg =
      (entries.map (fun e =>
        (e, specsL.map (fun s => specCellValue df cg e s)))).filter
        (fun r => !(r.2.all (fun x => x.isNone))) := by
  unfold countsDF
  have he : entries.isEmpty = false := List.isEmpty_eq_false.mpr h
  simp only [Option.getD_some, he, Bool.false_eq_true, if_false,
    List.map_map, Function.comp_def, counts_cell_eq]
  rw [range_map_transpose (fun e s => specCellValue df cg e s) specsL entries]

/-- C5 (witness): on the concrete two-entry dataframe, the RUNNING entry's
cell is null and its all-null row is dropped, while the COMPLETE entry
counts 4 gradient evaluations across its stages. -/
theorem counts_cells_and_dropna_witness :
    ((["a", "b"] : List String) ≠ []) ∧
    countsDF ["a", "b"] ["s1"] dfW ["a", "b"] (some ["s1"]) true =
      ((["a", "b"].map (fun e =>
        (e, ["s1"].map (fun s => specCellValue dfW true e s)))).filter
        (fun r => !(r.2.all (fun x => x.isNone)))) :=
  ⟨by decide, counts_cells_and_dropna ["a", "b"] ["s1"] dfW ["a", "b"]
    ["s1"] true (by decide)⟩

end QCFractal
